import Mathlib

/-!
Verification of the `use`-statement layout normalizer
(`scripts/enforce_use_groups.py`).

Strings are embedded as `List Char`; every definition below is a direct
translation of the corresponding Python function, keeping the source's
names.  File lines are represented the way `str.splitlines(keepends=True)`
yields them: each line keeps its trailing newline character.
-/

namespace EnforceUseGroups

/-- A Python string, embedded as a list of characters. -/
abbrev Str := List Char

/-- Conversion from Lean string literals to the embedding. -/
def chars (s : String) : Str := s.toList

/-- Python whitespace (`str.strip` default set / regex `\s`, ASCII part). -/
def isPyWs (c : Char) : Bool :=
  c = ' ' ∨ c = '\t' ∨ c = '\n' ∨ c = '\r' ∨ c = '\x0b' ∨ c = '\x0c'

/-- Python `str.lstrip()`. -/
def pyLstrip (s : Str) : Str := s.dropWhile isPyWs

/-- Python `str.rstrip()`. -/
def pyRstrip (s : Str) : Str := (s.reverse.dropWhile isPyWs).reverse

/-- Python `str.strip()`. -/
def pyStrip (s : Str) : Str := pyRstrip (pyLstrip s)

/-- Python `needle in hay` for strings. -/
def isSubstr (needle hay : Str) : Bool :=
  match hay with
  | [] => needle.isEmpty
  | c :: rest => needle.isPrefixOf (c :: rest) || isSubstr needle rest

/-- A word character for the regex `\b` boundary (`\w`, ASCII part). -/
def isWordChar (c : Char) : Bool := c.isAlphanum || c = '_'

/-- `kw` occurs as a prefix of `t` followed by a word boundary (`kw\b`). -/
def kwBoundary (kw t : Str) : Bool :=
  kw.isPrefixOf t &&
    (match t.drop kw.length with
     | [] => true
     | c :: _ => !isWordChar c)

/-- `USE_RE = ^\s*(pub\s+)?use\b` applied to a line. -/
def matchesUse (l : Str) : Bool :=
  let t := pyLstrip l
  match t with
  | 'p' :: 'u' :: 'b' :: c :: rest =>
      if isPyWs c then kwBoundary (chars "use") (pyLstrip (c :: rest))
      else kwBoundary (chars "use") t
  | _ => kwBoundary (chars "use") t

/-- `MOD_RE = ^\s*(pub\s+)?mod\b` applied to a line. -/
def matchesMod (l : Str) : Bool :=
  let t := pyLstrip l
  match t with
  | 'p' :: 'u' :: 'b' :: c :: rest =>
      if isPyWs c then kwBoundary (chars "mod") (pyLstrip (c :: rest))
      else kwBoundary (chars "mod") t
  | _ => kwBoundary (chars "mod") t

/-- `ATTR_RE = ^\s*#\[` applied to a line. -/
def isAttrLine (l : Str) : Bool := (chars "#[").isPrefixOf (pyLstrip l)

/-- `COMMENT_RE = ^\s*//` applied to a line. -/
def isCommentLine (l : Str) : Bool := (chars "//").isPrefixOf (pyLstrip l)

/-- `BLOCK_COMMENT_START_RE = ^\s*/\*` applied to a line. -/
def isBlockCommentLine (l : Str) : Bool := (chars "/*").isPrefixOf (pyLstrip l)

/-- A line that strips to the empty string. -/
def isBlankLine (l : Str) : Bool := (pyStrip l).isEmpty

/-- `line.count("{") - line.count("}")`. -/
def braceDelta (l : Str) : Int := (l.count '{' : Int) - (l.count '}' : Int)

/-- `";" in line`. -/
def hasSemi (l : Str) : Bool := l.any (· = ';')

/-- Split a string at its first `;`: `some (before, after)`, or `none`. -/
def splitFirstSemi : Str → Option (Str × Str)
  | [] => none
  | c :: rest =>
      if c = ';' then some ([], rest)
      else (splitFirstSemi rest).map (fun p => (c :: p.1, p.2))

/-- One attempted match of `\buse\s+([^;]+);` anchored at the head of `s`
(the boundary before `use` is checked by the caller).  Returns the stripped
capture group. -/
def useMatchAt (s : Str) : Option Str :=
  match s with
  | 'u' :: 's' :: 'e' :: tl =>
      (match tl with
       | c :: _ =>
           if isPyWs c then
             match splitFirstSemi tl with
             | some (mid, _) => if 2 ≤ mid.length then some (pyStrip mid) else none
             | none => none
           else none
       | [] => none)
  | _ => none

/-- `re.search(r"\buse\s+([^;]+);", s)`: scan for the leftmost match. -/
def searchUse : Option Char → Str → Option Str
  | _, [] => none
  | prev, c :: rest =>
      let bOk : Bool := match prev with | none => true | some p => !isWordChar p
      match (if bOk then useMatchAt (c :: rest) else none) with
      | some r => some r
      | none => searchUse (some c) rest

/-- `extract_use_path`: join the stripped non-attribute lines with spaces and
search for the `use …;` path. -/
def extract_use_path (lines : List Str) : Option Str :=
  searchUse none
    (List.intercalate (chars " ") ((lines.filter (fun l => !isAttrLine l)).map pyStrip))

/-- The fixed shared/utility allow-list `GROUP1_CRATES`. -/
def GROUP1_CRATES : List Str :=
  (["std", "core", "alloc", "anyhow", "serde", "serde_json", "serde_yaml",
    "serde_repr", "serde_with", "serde_bytes", "serde_path_to_error",
    "serde_cbor", "serde_urlencoded", "serde_json_path", "toml", "ron",
    "regex", "lazy_static", "once_cell", "clap", "tokio", "futures",
    "async_std", "time", "chrono", "log", "env_logger", "thiserror",
    "color_eyre", "eyre", "uuid", "tempfile", "rand", "base64", "bytes",
    "smallvec", "itertools", "indexmap", "cfg_if", "tracing",
    "tracing_subscriber", "indicatif", "parking_lot", "crossbeam",
    "tokio_stream", "tokio_util", "tokio_macros", "reqwest", "hyper",
    "anymap", "bstr", "dashmap", "hashbrown", "im", "prost", "prost_types",
    "tonic", "url", "urlencoding", "walkdir", "which", "rayon", "backtrace",
    "bytemuck", "bytesize", "csv", "flate2", "glob", "hex", "http", "num",
    "num_traits", "ordered_float", "petgraph", "rand_chacha", "rand_core",
    "redox_syscall", "rust_decimal", "serde_xml_rs", "sha2", "snap", "strum",
    "strum_macros", "tokio_test", "tracing_core", "typemap", "warp",
    "whoami", "xml_rs"] : List String).map String.toList

/-- `re.split(r"::|,|\s|{", token, maxsplit=1)[0]`: the leading segment up to
the first `::`, comma, whitespace or opening brace. -/
def classBase : Str → Str
  | [] => []
  | ':' :: ':' :: _ => []
  | c :: rest =>
      if c = ',' ∨ isPyWs c ∨ c = '{' then []
      else c :: classBase rest

/-- The `pub ` / `use ` prefix stripping shared by `classify_use` and
`compute_merge_components`. -/
def stripPubUse (t : Str) : Str :=
  let t := if (chars "pub ").isPrefixOf t then pyStrip (t.drop 4) else t
  if (chars "use ").isPrefixOf t then pyStrip (t.drop 4) else t

/-- The stripped, `pub `/`use `-normalized token `classify_use` works on. -/
def classToken (p : Str) : Str := stripPubUse (pyStrip p)

/-- Does the token open with an explicit self-referential path marker? -/
def startsSelfMarker (t : Str) : Bool :=
  (chars "crate::").isPrefixOf t || (chars "self::").isPrefixOf t ||
    (chars "super::").isPrefixOf t

/-- The leading segment considered by `classify_use` after the optional
`::`-prefix strip. -/
def classLeadingSeg (t : Str) : Str :=
  classBase (if (chars "::").isPrefixOf t then t.dropWhile (· = ':') else t)

/-- `classify_use(path, workspace_crates)`. -/
def classify_use (path : Option Str) (ws : List Str) : Nat :=
  match path with
  | none => 2
  | some p =>
      if p.isEmpty then 2
      else
        let token := classToken p
        if startsSelfMarker token then 3
        else
          let base := classLeadingSeg token
          if base = chars "crate" ∨ base = chars "self" ∨ base = chars "super" then 3
          else if base ∈ ws then 3
          else if base ∈ GROUP1_CRATES then 1
          else 2

/-- Python `token.split("::")` (split on every occurrence). -/
def splitDCAux (cur : Str) : Str → List Str
  | ':' :: ':' :: rest => cur.reverse :: splitDCAux [] rest
  | c :: rest => splitDCAux (c :: cur) rest
  | [] => [cur.reverse]

/-- Python `token.split("::")`. -/
def splitDC (s : Str) : List Str := splitDCAux [] s

/-- Python `token.split("::", 1)`: `(head, some rest)` when a separator
occurs, `(token, none)` otherwise. -/
def splitDC1 : Str → Str × Option Str
  | ':' :: ':' :: rest => ([], some rest)
  | c :: rest => let p := splitDC1 rest; (c :: p.1, p.2)
  | [] => ([], none)

/-- `compute_simple_components(path, has_attrs)`. -/
def compute_simple_components (path : Option Str) (has_attrs : Bool) :
    Option Str × Option Str :=
  if has_attrs then (none, none)
  else
    match path with
    | none => (none, none)
    | some p =>
        if p.isEmpty then (none, none)
        else
          let token := pyStrip p
          if token.any (fun c => c = '{' ∨ c = '}' ∨ c = '*') then (none, none)
          else if isSubstr (chars " as ") token then (none, none)
          else if token.getLast? = some ':' then (none, none)
          else
            let parts := splitDC token
            if parts.length < 2 then (none, none)
            else
              let pfx := List.intercalate (chars "::") parts.dropLast
              let leaf := pyStrip (parts.getLastD [])
              if pfx.isEmpty ∨ leaf.isEmpty then (none, none)
              else (some pfx, some leaf)

/-- `compute_merge_components(path, has_attrs)`: `(base, remainder)` merging
by top-level crate; `remainder = some []` models Python's empty-string
remainder of a single-segment path, distinct from `none`. -/
def compute_merge_components (path : Option Str) (has_attrs : Bool) :
    Option Str × Option Str :=
  if has_attrs then (none, none)
  else
    match path with
    | none => (none, none)
    | some p =>
        if p.isEmpty then (none, none)
        else
          let token := stripPubUse (pyStrip p)
          let token := token.dropWhile (· = ':')
          let sp := splitDC1 token
          match sp.2 with
          | none => (some sp.1, some [])
          | some rem => (some sp.1, some rem)

/-- The `UseStatement` dataclass.  `simple_pfx`/`simple_leaf` are the
source's `simple_prefix`/`simple_leaf` fields. -/
structure UseStatement where
  lines : List Str
  path : Option Str
  is_pub : Bool
  group : Nat
  simple_pfx : Option Str
  simple_leaf : Option Str
  has_attrs : Bool
  merge_base : Option Str
  merge_remainder : Option Str
  deriving Repr, DecidableEq

/-- The `Statement` dataclass; `kind` is `"use"` or `"mod"`. -/
structure Statement where
  kind : Str
  lines : List Str
  use_stmt : Option UseStatement
  deriving Repr, DecidableEq

/-- `build_use_statement(lines)`; the workspace-crate set is passed in
explicitly instead of the module global `WORKSPACE_CRATES`. -/
def build_use_statement (ws : List Str) (lines : List Str) : UseStatement :=
  let code_lines := lines.filter (fun l => !isAttrLine l)
  let path := extract_use_path lines
  let is_pub : Bool :=
    match code_lines with
    | [] => false
    | l :: _ => (chars "pub ").isPrefixOf (pyLstrip l)
  let has_attrs := lines.any isAttrLine
  let sc := compute_simple_components path has_attrs
  let mc := compute_merge_components path has_attrs
  let group := classify_use path ws
  ⟨lines, path, is_pub, group, sc.1, sc.2, has_attrs, mc.1, mc.2⟩

/-- The ordered pending map of `render_group`, keyed by
`(is_pub, merge_base)` in first-insertion order. -/
abbrev Pending := List ((Bool × Str) × List Str)

/-- De-duplicate keeping the first occurrence (`unique_leaves` loop). -/
def dedupFirst (ls : List Str) : List Str :=
  ls.foldl (fun acc l => if acc.contains l then acc else acc ++ [l]) []

/-- The short-form line `use prefix::leaf;` built by `flush_simple`. -/
def mkLineSingle (is_pub : Bool) (pfx leaf : Str) : Str :=
  (if is_pub then chars "pub " else []) ++ chars "use " ++ pfx ++ chars "::" ++
    leaf ++ chars ";\n"

/-- The bracketed line `use prefix::{l1, l2, …};` built by `flush_simple`. -/
def mkLineGroup (is_pub : Bool) (pfx : Str) (leaves : List Str) : Str :=
  (if is_pub then chars "pub " else []) ++ chars "use " ++ pfx ++ chars "::" ++
    chars "\x7b" ++ List.intercalate (chars ", ") leaves ++ chars "\x7d" ++
    chars ";\n"

/-- One iteration of the `flush_simple` loop: skip a bucket with no unique
leaves, render the short form for one leaf, the bracketed form for more. -/
def flushStep (out : List Str) (kv : (Bool × Str) × List Str) : List Str :=
  let uniq := dedupFirst kv.2
  if uniq.isEmpty then out
  else if uniq.length = 1 then
    out ++ [mkLineSingle kv.1.1 kv.1.2 (uniq.headD [])]
  else out ++ [mkLineGroup kv.1.1 kv.1.2 uniq]

/-- `flush_simple(pending, output)`: the lines appended to `output`. -/
def flush_simple (pending : Pending) : List Str :=
  pending.foldl flushStep []

/-- One step of the depth-aware comma split in `normalize_remainder_items`:
state is (depth, current chunk, finished parts). -/
def nriStep (st : Int × Str × List Str) (ch : Char) : Int × Str × List Str :=
  let (depth, cur, parts) := st
  if ch = '{' then (depth + 1, cur ++ [ch], parts)
  else if ch = '}' then (depth - 1, cur ++ [ch], parts)
  else if ch = ',' ∧ depth = 0 then
    let part := pyStrip cur
    (depth, [], if part.isEmpty then parts else parts ++ [part])
  else (depth, cur ++ [ch], parts)

/-- `normalize_remainder_items(remainder)`. -/
def normalize_remainder_items (remainder : Str) : List Str :=
  let r := pyStrip remainder
  if r.head? = some '{' ∧ r.getLast? = some '}' then
    let inner := (r.drop 1).dropLast
    let st := inner.foldl nriStep (0, [], [])
    let last := pyStrip st.2.1
    if last.isEmpty then st.2.2 else st.2.2 ++ [last]
  else if r.isEmpty then [] else [r]

/-- Register `key` in the pending map (at the end, in `OrderedDict` insertion
order) and extend its bucket with `items`. -/
def pendingAdd (pending : Pending) (key : Bool × Str) (items : List Str) :
    Pending :=
  if pending.any (fun kv => decide (kv.1 = key)) then
    pending.map (fun kv => if kv.1 = key then (kv.1, kv.2 ++ items) else kv)
  else pending ++ [(key, items)]

/-- The merge guard of `render_group`:
`stmt.merge_base and stmt.merge_remainder is not None and not stmt.has_attrs`
(Python truthiness makes an empty `merge_base` fail the guard). -/
def mergeEligible (s : UseStatement) : Bool :=
  (match s.merge_base with | some b => !b.isEmpty | none => false) &&
    s.merge_remainder.isSome && !s.has_attrs

/-- The statement loop of `render_group`, carrying the pending map; the
final `flush_simple` call is the `[]` case. -/
def renderLoop (pending : Pending) : List UseStatement → List Str
  | [] => flush_simple pending
  | s :: rest =>
      if mergeEligible s then
        renderLoop
          (pendingAdd pending (s.is_pub, s.merge_base.getD [])
            (normalize_remainder_items (s.merge_remainder.getD [])))
          rest
      else flush_simple pending ++ s.lines ++ renderLoop [] rest

/-- `render_group(statements)`. -/
def render_group (statements : List UseStatement) : List Str :=
  if statements.isEmpty then [] else renderLoop [] statements

/-- The body of the `for group in (1, 2, 3)` loop of `render_use_section`:
append a group block, inserting a blank line when the rendered output so far
ends in a non-blank line. -/
def sectionAdd (rendered block : List Str) : List Str :=
  if block.isEmpty then rendered
  else
    (match rendered.getLast? with
     | some l => if (pyStrip l).isEmpty then rendered else rendered ++ [chars "\n"]
     | none => rendered) ++ block

/-- The closing step of `render_use_section`
(`if rendered and rendered[-1].strip(): rendered.append("\n")`). -/
def closeSection (rendered : List Str) : List Str :=
  match rendered.getLast? with
  | some l => if (pyStrip l).isEmpty then rendered else rendered ++ [chars "\n"]
  | none => rendered

/-- `render_use_section(use_statements)`. -/
def render_use_section (use_statements : List UseStatement) : List Str :=
  let b1 := render_group (use_statements.filter (fun s => s.group = 1))
  let b2 := render_group (use_statements.filter (fun s => s.group = 2))
  let b3 := render_group (use_statements.filter (fun s => s.group = 3))
  closeSection (sectionAdd (sectionAdd (sectionAdd [] b1) b2) b3)

/-- The `while not semicolon_found` loop of `collect_statement`:
returns the consumed lines and their number. -/
def useLoop (bal : Int) : List Str → List Str × Nat
  | [] => ([], 0)
  | l :: rest =>
      let bal2 := bal + braceDelta l
      if hasSemi l ∧ bal2 ≤ 0 then ([l], 1)
      else
        let p := useLoop bal2 rest
        (l :: p.1, p.2 + 1)

/-- `collect_statement(lines, idx)`. -/
def collect_statement (ws : List Str) (lines : List Str) (idx : Nat) :
    Option Statement × Nat :=
  let attrs := (lines.drop idx).takeWhile isAttrLine
  let cur := idx + attrs.length
  match (lines.drop cur).head? with
  | none => (none, idx)
  | some line =>
      if matchesUse line then
        let bal := braceDelta line
        if hasSemi line ∧ bal ≤ 0 then
          let stmt_lines := attrs ++ [line]
          (some ⟨chars "use", stmt_lines, some (build_use_statement ws stmt_lines)⟩,
            cur + 1)
        else
          let p := useLoop bal (lines.drop (cur + 1))
          let stmt_lines := attrs ++ [line] ++ p.1
          (some ⟨chars "use", stmt_lines, some (build_use_statement ws stmt_lines)⟩,
            cur + 1 + p.2)
      else if matchesMod line then
        (some ⟨chars "mod", attrs ++ [line], none⟩, cur + 1)
      else (none, idx)

/-- The statement-collection loop of `process_file`; after each statement
the immediately following blank lines are absorbed.  `fuel` bounds the
iteration count (`lines.length + 1` always suffices, as each collected
statement advances the index). -/
def collectAll (ws : List Str) (lines : List Str) :
    Nat → Nat → List Statement × Nat
  | 0, cur => ([], cur)
  | fuel + 1, cur =>
      match collect_statement ws lines cur with
      | (none, _) => ([], cur)
      | (some st, next) =>
          let next2 := next + ((lines.drop next).takeWhile isBlankLine).length
          let r := collectAll ws lines fuel next2
          (st :: r.1, r.2)

/-- The leading-prefix loop of `process_file`: `some k` is the index where
the statement block starts (or the file length when every line belongs to
the prefix); `none` models the `return None  # No leading use/mod block`
early exit. -/
def prefixScan : List Str → Option Nat
  | [] => some 0
  | l :: rest =>
      if isBlankLine l ∨ isCommentLine l ∨ isBlockCommentLine l then
        (prefixScan rest).map (· + 1)
      else if (chars "#!").isPrefixOf l then (prefixScan rest).map (· + 1)
      else if isAttrLine l then some 0
      else if matchesUse l ∨ matchesMod l then some 0
      else none

/-- `append_blank_line(buf)`. -/
def append_blank_line (buf : List Str) : List Str :=
  match buf.getLast? with
  | none => buf
  | some l => if (pyStrip l).isEmpty then buf else buf ++ [chars "\n"]

/-- The final trailing-newline fix of `process_file`
(`if new_lines and not new_lines[-1].endswith("\n")`). -/
def fixTrailing (buf : List Str) : List Str :=
  match buf.getLast? with
  | none => buf
  | some l =>
      if l.getLast? = some '\n' then buf else buf.dropLast ++ [l ++ chars "\n"]

/-- The designated module-root filenames. -/
def rootNames : List Str := [chars "mod.rs", chars "lib.rs", chars "main.rs"]

/-- The `use_statements` list-comprehension of `process_file`
(`stmt.use_stmt for stmt in statements if stmt.kind == "use" and stmt.use_stmt`). -/
def useStatementsOf (statements : List Statement) : List UseStatement :=
  statements.filterMap (fun st => if st.kind = chars "use" then st.use_stmt else none)

/-- The submodule statements of a collected statement list (their lines). -/
def modLinesOf (statements : List Statement) : List (List Str) :=
  (statements.filter (fun st => st.kind = chars "mod")).map Statement.lines

/-- The non-import statements of a collected statement list (their lines). -/
def otherLinesOf (statements : List Statement) : List (List Str) :=
  (statements.filter (fun st => st.kind ≠ chars "use")).map Statement.lines

/-- The `new_lines` assembly of `process_file` before the suffix is
re-attached: prefix, then the submodule statements (for module-root names)
or the non-import statements (otherwise), a separating blank line, and the
rendered import section. -/
def newLinesFor (name : Str) (pfx : List Str) (statements : List Statement)
    (use_section : List Str) : List Str :=
  if name ∈ rootNames then
    let mods := modLinesOf statements
    let base := pfx ++ mods.flatten
    let base :=
      if ¬mods.isEmpty ∧ ¬use_section.isEmpty then append_blank_line base
      else base
    base ++ use_section
  else
    let others := otherLinesOf statements
    let base := pfx ++ others.flatten
    let base :=
      if ¬others.isEmpty ∧ ¬use_section.isEmpty then append_blank_line base
      else base
    base ++ use_section

/-- `process_file(path)` on the file's lines (as split with `keepends`);
returns the rewritten text only when it differs from the original. -/
def process_file (ws : List Str) (name : Str) (lines : List Str) : Option Str :=
  match prefixScan lines with
  | none => none
  | some idx =>
      let ca := collectAll ws lines (lines.length + 1) idx
      if ca.1.isEmpty then none
      else
        let use_statements := useStatementsOf ca.1
        if use_statements.isEmpty then none
        else
          let use_section := render_use_section use_statements
          if use_section.isEmpty then none
          else
            let new_lines := fixTrailing
              (newLinesFor name (lines.take idx) ca.1 use_section ++ lines.drop ca.2)
            let new_text := new_lines.flatten
            if new_text ≠ lines.flatten then some new_text else none

/-- Python `text.splitlines(keepends=True)` restricted to `\n` terminators
(the only terminator this program emits). -/
def splitKeepAux (cur : Str) : Str → List Str
  | [] => if cur.isEmpty then [] else [cur.reverse]
  | '\n' :: rest => ('\n' :: cur).reverse :: splitKeepAux [] rest
  | c :: rest => splitKeepAux (c :: cur) rest

/-- Split a text into lines, keeping the newline terminators. -/
def splitKeep (s : Str) : List Str := splitKeepAux [] s

/-!
Specification-side vocabulary used to state the claims.
-/

/-- What one pending bucket flushes to: nothing when it holds no unique
leaf, the short-form statement for exactly one, the bracketed group
statement listing the leaves in first-seen order for more. -/
def renderBucket (kv : (Bool × Str) × List Str) : Option Str :=
  let uniq := dedupFirst kv.2
  if uniq.isEmpty then none
  else if uniq.length = 1 then some (mkLineSingle kv.1.1 kv.1.2 (uniq.headD []))
  else some (mkLineGroup kv.1.1 kv.1.2 uniq)

/-- Rendered output so far ends in a non-blank line (so a blank separator
line would be needed before appending more). -/
def sepNeeded (rendered : List Str) : Bool :=
  match rendered.getLast? with
  | none => false
  | some l => !(pyStrip l).isEmpty

/-- Assemble group blocks in their fixed order: skip empty blocks, and put
one blank line between blocks exactly when the output so far ends in a
non-blank line. -/
def groupsAssembled (blocks : List (List Str)) : List Str :=
  blocks.foldl
    (fun acc b =>
      if b.isEmpty then acc
      else if sepNeeded acc then acc ++ chars "\n" :: b
      else acc ++ b)
    []

/-- Close a rendered section with one blank line exactly when it ends in a
non-blank line. -/
def sectionFinished (r : List Str) : List Str :=
  if sepNeeded r then r ++ [chars "\n"] else r

/-- A line the leading-prefix loop of `process_file` keeps skipping:
blank, line comment, block-comment opener, or shebang. -/
def prefixKeep (l : Str) : Bool :=
  isBlankLine l || isCommentLine l || isBlockCommentLine l ||
    (chars "#!").isPrefixOf l

/-- Net brace balance accumulated over `lines[u..j]` (both ends included). -/
def balThrough (lines : List Str) (u j : Nat) : Int :=
  (((lines.drop u).take (j - u + 1)).map braceDelta).sum

/-- The token of `classify_use` begins with a self-referential path marker:
an explicit `crate::`/`self::`/`super::` opening, or a leading segment that
is exactly `crate`, `self` or `super`. -/
def selfRefPath (t : Str) : Bool :=
  startsSelfMarker t || (classLeadingSeg t == chars "crate") ||
    (classLeadingSeg t == chars "self") || (classLeadingSeg t == chars "super")

/-- The statement-block start index found by the prefix loop (`0` when the
file is rejected; only used below under a successful `process_file`). -/
def prefixIdxOf (lines : List Str) : Nat := (prefixScan lines).getD 0

/-- The statements collected by `process_file` from a file's lines. -/
def stmtsOf (ws : List Str) (lines : List Str) : List Statement :=
  (collectAll ws lines (lines.length + 1) (prefixIdxOf lines)).1

/-- The index right after the collected statement block (suffix start). -/
def endIdxOf (ws : List Str) (lines : List Str) : Nat :=
  (collectAll ws lines (lines.length + 1) (prefixIdxOf lines)).2

/-- The submodule statements' lines, in original relative order. -/
def modsOf (ws : List Str) (lines : List Str) : List (List Str) :=
  modLinesOf (stmtsOf ws lines)

/-- The rendered import section of a file. -/
def useSectionOf (ws : List Str) (lines : List Str) : List Str :=
  render_use_section (useStatementsOf (stmtsOf ws lines))

/-- The untouched suffix of a file. -/
def suffixOf (ws : List Str) (lines : List Str) : List Str :=
  lines.drop (endIdxOf ws lines)

/-!
Claim theorems.
-/

/-- C1: the transform is not target-preserving.  The file
`use std::sync::Arc;` / `use foo;` is rewritten, and the single-segment
statement `use foo;` (merge base `foo`, empty remainder) vanishes from the
output: the rewritten text names no `foo` at all.  The code's own stated
policy only merges and regroups imports; silently deleting one contradicts
it, so this is a defect of the code, not of the claim. -/
theorem c1_single_segment_import_dropped :
    process_file [] (chars "a.rs")
        [chars "use std::sync::Arc;\n", chars "use foo;\n"]
      = some (chars "use std::sync::Arc;\n\n")
    ∧ isSubstr (chars "foo") (chars "use std::sync::Arc;\n\n") = false
    ∧ extract_use_path [chars "use foo;\n"] = some (chars "foo") := by
  refine ⟨by decide, by decide, by decide⟩

/-- C3: the transform is not idempotent.  On the two-line file
`use c::d;` / `use std::\x7ba;` (the second import never reaches a
terminating semicolon at non-positive brace depth) the first application
produces a rewritten text, and applying `process_file` to that result
reports another change — a second, different rewrite that additionally
drops `use c::d;` — instead of "no change". -/
theorem c3_not_idempotent :
    process_file [] (chars "a.rs") (splitKeep (chars "use c::d;\nuse std::\x7ba;\n"))
      = some (chars "use std::\x7ba;\n\nuse c::d;\n\n")
    ∧ process_file [] (chars "a.rs")
        (splitKeep (chars "use std::\x7ba;\n\nuse c::d;\n\n"))
      = some (chars "use std::\x7ba;\n\n") := by
  refine ⟨by decide, by decide⟩

/-- C2 counterexample: a wildcard import is NOT treated as merge-ineligible.
`use std::*;` (whose extracted path `std::*` contains a wildcard) is
combined with `use std::sync;` into the bracketed group
`use std::\x7b*, sync\x7d;`, and its original line does not appear verbatim
in the rendered output — contradicting the claim that wildcard paths are
never combined into a bracketed group. -/
theorem c2_ineligible_counterexample :
    process_file [] (chars "a.rs") [chars "use std::*;\n", chars "use std::sync;\n"]
      = some (chars "use std::\x7b*, sync\x7d;\n\n")
    ∧ extract_use_path [chars "use std::*;\n"] = some (chars "std::*")
    ∧ isSubstr (chars "use std::*;") (chars "use std::\x7b*, sync\x7d;\n\n") = false := by
  refine ⟨by decide, by decide, by decide⟩

/-- C4 counterexample: a pending bucket does NOT always flush to exactly one
rendered statement.  `use foo;` is merge-eligible (base `foo`, empty
remainder) and registers a pending bucket, but when the following
attributed statement forces a flush the bucket holds no leaves and renders
to nothing: the output is only the attributed statement's verbatim lines,
with no statement at all for the `foo` bucket. -/
theorem c4_flush_counterexample :
    mergeEligible (build_use_statement [] [chars "use foo;\n"]) = true
    ∧ render_group
        [build_use_statement [] [chars "use foo;\n"],
         build_use_statement [] [chars "#[cfg(test)]\n", chars "use x::y;\n"]]
      = [chars "#[cfg(test)]\n", chars "use x::y;\n"] := by
  refine ⟨by decide, by decide⟩

/-- C5 counterexample: two non-empty groups are NOT always separated by
exactly one blank line.  A group-1 statement whose collected lines end in
two blank lines (an attributed import that never terminates, absorbing the
trailing blanks) is emitted verbatim; the group-2 block follows without an
inserted separator, leaving two consecutive blank lines between the two
non-empty rendered groups. -/
theorem c5_section_counterexample :
    render_use_section
        [build_use_statement [] [chars "use c::d;\n"],
         build_use_statement []
           [chars "#[x]\n", chars "use std::\x7ba;\n", chars "\n", chars "\n"]]
      = [chars "#[x]\n", chars "use std::\x7ba;\n", chars "\n", chars "\n",
         chars "use c::d;\n", chars "\n"]
    ∧ (build_use_statement []
        [chars "#[x]\n", chars "use std::\x7ba;\n", chars "\n", chars "\n"]).group = 1
    ∧ (build_use_statement [] [chars "use c::d;\n"]).group = 2 := by
  refine ⟨by decide, by decide, by decide⟩

/-- C7: provenance classification.  A missing path defaults to group 2; a
path beginning with a self-referential marker, or whose leading segment
names a workspace package, is group 3; otherwise a leading segment on the
shared/utility allow-list gives group 1, and anything else group 2. -/
theorem c7_classify_groups (ws : List Str) :
    classify_use none ws = 2
    ∧ (∀ p : Str, p ≠ [] → selfRefPath (classToken p) = true →
        classify_use (some p) ws = 3)
    ∧ (∀ p : Str, p ≠ [] → classLeadingSeg (classToken p) ∈ ws →
        classify_use (some p) ws = 3)
    ∧ (∀ p : Str, p ≠ [] → selfRefPath (classToken p) = false →
        classLeadingSeg (classToken p) ∉ ws →
        classLeadingSeg (classToken p) ∈ GROUP1_CRATES →
        classify_use (some p) ws = 1)
    ∧ (∀ p : Str, p ≠ [] → selfRefPath (classToken p) = false →
        classLeadingSeg (classToken p) ∉ ws →
        classLeadingSeg (classToken p) ∉ GROUP1_CRATES →
        classify_use (some p) ws = 2) := by
  have hchar : ∀ p : Str, p ≠ [] →
      classify_use (some p) ws =
        (if startsSelfMarker (classToken p) then 3
         else if classLeadingSeg (classToken p) = chars "crate" ∨
             classLeadingSeg (classToken p) = chars "self" ∨
             classLeadingSeg (classToken p) = chars "super" then 3
         else if classLeadingSeg (classToken p) ∈ ws then 3
         else if classLeadingSeg (classToken p) ∈ GROUP1_CRATES then 1
         else 2) := by
    intro p hp
    have hemp : ¬(p.isEmpty = true) := by simp [List.isEmpty_iff, hp]
    simp only [classify_use]
    rw [if_neg hemp]
  refine ⟨rfl, ?_, ?_, ?_, ?_⟩
  · intro p hp h
    simp only [selfRefPath, Bool.or_eq_true, beq_iff_eq] at h
    rw [hchar p hp]
    by_cases hs : startsSelfMarker (classToken p) = true
    · rw [if_pos hs]
    · rw [if_neg hs, if_pos (by tauto)]
  · intro p hp h
    rw [hchar p hp]
    by_cases hs : startsSelfMarker (classToken p) = true
    · rw [if_pos hs]
    · rw [if_neg hs]
      by_cases hm : classLeadingSeg (classToken p) = chars "crate" ∨
          classLeadingSeg (classToken p) = chars "self" ∨
          classLeadingSeg (classToken p) = chars "super"
      · rw [if_pos hm]
      · rw [if_neg hm, if_pos h]
  · intro p hp h hws hg
    simp only [selfRefPath, Bool.or_eq_false_iff, beq_eq_false_iff_ne] at h
    obtain ⟨⟨⟨hs, hc⟩, hsl⟩, hsu⟩ := h
    rw [hchar p hp, if_neg (by simp [hs]), if_neg (by tauto), if_neg hws,
      if_pos hg]
  · intro p hp h hws hg
    simp only [selfRefPath, Bool.or_eq_false_iff, beq_eq_false_iff_ne] at h
    obtain ⟨⟨⟨hs, hc⟩, hsl⟩, hsu⟩ := h
    rw [hchar p hp, if_neg (by simp [hs]), if_neg (by tauto), if_neg hws,
      if_neg hg]

/-- One `flush_simple` iteration appends what the bucket renders to. -/
lemma flushStep_eq (out : List Str) (kv : (Bool × Str) × List Str) :
    flushStep out kv = out ++ (renderBucket kv).toList := by
  simp only [flushStep, renderBucket]
  split_ifs <;> simp

/-- The `flush_simple` fold, with an arbitrary accumulator. -/
lemma foldl_flushStep (p : Pending) :
    ∀ acc : List Str, p.foldl flushStep acc = acc ++ p.filterMap renderBucket := by
  induction p with
  | nil => intro acc; simp
  | cons kv rest ih =>
      intro acc
      simp only [List.foldl_cons, List.filterMap_cons, flushStep_eq]
      cases h : renderBucket kv <;> simp [ih, h]

/-- `flush_simple` renders each bucket independently, in pending order. -/
lemma flush_simple_eq (p : Pending) : flush_simple p = p.filterMap renderBucket := by
  simpa using foldl_flushStep p []

/-- A one-bucket pending map flushes to that bucket's rendering. -/
lemma flush_simple_singleton (kv : (Bool × Str) × List Str) :
    flush_simple [kv] = (renderBucket kv).toList := by
  rw [flush_simple_eq]
  cases h : renderBucket kv <;> simp [List.filterMap_cons, h]

/-- A non-merge-eligible statement appears verbatim in the render loop's
output, whatever the pending state. -/
lemma renderLoop_verbatim :
    ∀ (ss : List UseStatement) (p : Pending) (s : UseStatement), s ∈ ss →
      mergeEligible s = false →
      ∃ pre post, renderLoop p ss = pre ++ s.lines ++ post := by
  intro ss
  induction ss with
  | nil => intro p s h _; exact absurd h (List.not_mem_nil s)
  | cons hd rest ih =>
      intro p s hmem hs
      rcases List.mem_cons.mp hmem with rfl | hmem'
      · refine ⟨flush_simple p, renderLoop [] rest, ?_⟩
        simp [renderLoop, hs]
      · by_cases hhd : mergeEligible hd = true
        · obtain ⟨pre, post, heq⟩ := ih
            (pendingAdd p (hd.is_pub, hd.merge_base.getD [])
              (normalize_remainder_items (hd.merge_remainder.getD []))) s hmem' hs
          exact ⟨pre, post, by simp [renderLoop, hhd, heq]⟩
        · obtain ⟨pre, post, heq⟩ := ih ([] : Pending) s hmem' hs
          refine ⟨flush_simple p ++ hd.lines ++ pre, post, ?_⟩
          simp [renderLoop, hhd, heq]

/-- C2 (amended): the statements with no merge key are exactly those
carrying attribute lines or lacking an extractable path (wildcards,
renaming clauses and short paths do not disqualify a statement); an
attribute-carrying statement gets no merge key, fails the merge guard, and
its original lines are emitted verbatim inside the rendered group. -/
theorem c2_ineligible_amended :
    (∀ (path : Option Str) (has_attrs : Bool),
        has_attrs = true ∨ path = none →
        compute_merge_components path has_attrs = (none, none))
    ∧ (∀ (ws : List Str) (lines : List Str),
        lines.any isAttrLine = true →
        (build_use_statement ws lines).merge_base = none
        ∧ (build_use_statement ws lines).merge_remainder = none
        ∧ mergeEligible (build_use_statement ws lines) = false)
    ∧ (∀ (statements : List UseStatement) (s : UseStatement), s ∈ statements →
        mergeEligible s = false →
        ∃ pre post, render_group statements = pre ++ s.lines ++ post) := by
  have h1 : ∀ (path : Option Str) (has_attrs : Bool),
      has_attrs = true ∨ path = none →
      compute_merge_components path has_attrs = (none, none) := by
    intro path ha h
    rcases h with rfl | rfl
    · simp [compute_merge_components]
    · cases ha <;> simp [compute_merge_components]
  refine ⟨h1, ?_, ?_⟩
  · intro ws lines h
    have hmc : compute_merge_components (extract_use_path lines) true = (none, none) :=
      h1 _ _ (Or.inl rfl)
    refine ⟨?_, ?_, ?_⟩ <;> simp [build_use_statement, mergeEligible, h, hmc]
  · intro statements s hmem hs
    have hne : statements.isEmpty = false := by
      cases statements
      · exact absurd hmem (List.not_mem_nil s)
      · rfl
    simp only [render_group, hne, Bool.false_eq_true, if_false]
    exact renderLoop_verbatim statements [] s hmem hs

/-- C2 amended witness: an attributed import is rendered verbatim (its two
original lines appear contiguously in the group's output). -/
theorem c2_ineligible_amended_witness :
    ∃ pre post,
      render_group
          [build_use_statement [] [chars "#[cfg(test)]\n", chars "use x::y;\n"],
           build_use_statement [] [chars "use std::sync;\n"]]
        = pre ++
            (build_use_statement [] [chars "#[cfg(test)]\n", chars "use x::y;\n"]).lines
            ++ post :=
  c2_ineligible_amended.2.2 _ _ (by decide) (by decide)

/-- C4 (amended): meeting a non-merge-eligible statement flushes the whole
pending map before the statement's verbatim lines, clearing it; each bucket
holding at least one leaf flushes to exactly one rendered statement (short
form for one unique leaf, bracketed form in first-seen order for more,
nothing for a leafless bucket); and two merge-eligible statements separated
by a non-mergeable one yield two separate rendered statements, each built
only from its own side's remainder items. -/
theorem c4_flush_amended :
    (∀ (pending : Pending) (n : UseStatement) (rest : List UseStatement),
        mergeEligible n = false →
        renderLoop pending (n :: rest) =
          flush_simple pending ++ n.lines ++ renderLoop [] rest)
    ∧ (∀ pending : Pending, flush_simple pending = pending.filterMap renderBucket)
    ∧ (∀ s1 n s2 : UseStatement,
        mergeEligible s1 = true → mergeEligible n = false → mergeEligible s2 = true →
        render_group [s1, n, s2] =
          (renderBucket ((s1.is_pub, s1.merge_base.getD []),
              normalize_remainder_items (s1.merge_remainder.getD []))).toList
            ++ n.lines ++
            (renderBucket ((s2.is_pub, s2.merge_base.getD []),
              normalize_remainder_items (s2.merge_remainder.getD []))).toList) := by
  refine ⟨?_, flush_simple_eq, ?_⟩
  · intro pending n rest hn
    simp [renderLoop, hn]
  · intro s1 n s2 h1 hn h2
    have hadd : ∀ (key : Bool × Str) (items : List Str),
        pendingAdd [] key items = [(key, items)] := by
      intro key items
      simp [pendingAdd]
    simp [render_group, renderLoop, h1, hn, h2, hadd, flush_simple_singleton]

/-- C4 amended witness: `use std::a;` and `use std::b;` separated by an
attributed import produce two separate short-form statements around the
verbatim attributed lines. -/
theorem c4_flush_amended_witness :
    render_group
        [build_use_statement [] [chars "use std::a;\n"],
         build_use_statement [] [chars "#[c]\n", chars "use z::w;\n"],
         build_use_statement [] [chars "use std::b;\n"]]
      = (renderBucket
            (((build_use_statement [] [chars "use std::a;\n"]).is_pub,
              (build_use_statement [] [chars "use std::a;\n"]).merge_base.getD []),
            normalize_remainder_items
              ((build_use_statement [] [chars "use std::a;\n"]).merge_remainder.getD []))).toList
          ++ (build_use_statement [] [chars "#[c]\n", chars "use z::w;\n"]).lines ++
          (renderBucket
            (((build_use_statement [] [chars "use std::b;\n"]).is_pub,
              (build_use_statement [] [chars "use std::b;\n"]).merge_base.getD []),
            normalize_remainder_items
              ((build_use_statement [] [chars "use std::b;\n"]).merge_remainder.getD []))).toList :=
  c4_flush_amended.2.2 _ _ _ (by decide) (by decide) (by decide)

/-- `sectionAdd` in assembly form. -/
lemma sectionAdd_eq (acc b : List Str) :
    sectionAdd acc b =
      if b.isEmpty then acc
      else if sepNeeded acc then acc ++ chars "\n" :: b
      else acc ++ b := by
  cases hacc : acc.getLast? <;> simp only [sectionAdd, sepNeeded, hacc] <;>
    split_ifs <;> simp_all

/-- The closing blank-line step in assembly form. -/
lemma closeSection_eq (r : List Str) : closeSection r = sectionFinished r := by
  cases hr : r.getLast? <;> simp only [closeSection, sectionFinished, sepNeeded, hr] <;>
    split_ifs <;> simp_all

/-- C5 (amended): the rendered import section is the three group blocks
assembled in the fixed numeric order 1, 2, 3, with one blank line inserted
between blocks (and appended at the end) exactly when the output so far
ends in a non-blank line — so a verbatim statement that already ends in
blank lines supplies (and may exceed) the separation itself. -/
theorem c5_section_amended (use_statements : List UseStatement) :
    render_use_section use_statements =
      sectionFinished (groupsAssembled
        [render_group (use_statements.filter (fun s => s.group = 1)),
         render_group (use_statements.filter (fun s => s.group = 2)),
         render_group (use_statements.filter (fun s => s.group = 3))]) := by
  simp only [render_use_section, groupsAssembled, List.foldl_cons, List.foldl_nil,
    closeSection_eq, sectionAdd_eq]

/-- C7 witness: scenario 5 — with workspace package `alpha`, the import
path `alpha::foo` is classified into group 3, not group 2. -/
theorem c7_classify_groups_witness :
    classify_use (some (chars "alpha::foo")) [chars "alpha"] = 3 :=
  (c7_classify_groups [chars "alpha"]).2.2.1 (chars "alpha::foo")
    (by decide) (by decide)

/-- The prefix loop rejects a file whose first non-prefix line is neither
an attribute, an import opener nor a submodule opener. -/
lemma prefixScan_eq_none :
    ∀ (lines : List Str) (k : Nat), k < lines.length →
      (∀ i, i < k → prefixKeep (lines.getD i []) = true) →
      prefixKeep (lines.getD k []) = false →
      isAttrLine (lines.getD k []) = false →
      matchesUse (lines.getD k []) = false →
      matchesMod (lines.getD k []) = false →
      prefixScan lines = none := by
  intro lines
  induction lines with
  | nil => intro k hk; simp at hk
  | cons l rest ih =>
      intro k hk hpre hkeep hattr huse hmod
      cases k with
      | zero =>
          simp only [List.getD_cons_zero] at hkeep hattr huse hmod
          simp only [prefixKeep, Bool.or_eq_false_iff] at hkeep
          obtain ⟨⟨⟨hb, hc⟩, hbc⟩, hsh⟩ := hkeep
          simp [prefixScan, hb, hc, hbc, hsh, hattr, huse, hmod]
      | succ k' =>
          have h0 : prefixKeep l = true := by
            simpa using hpre 0 (Nat.succ_pos k')
          have hres : prefixScan rest = none := by
            refine ih k' (by simpa using hk) (fun i hi => ?_) ?_ ?_ ?_ ?_
            · simpa using hpre (i + 1) (by omega)
            · simpa using hkeep
            · simpa using hattr
            · simpa using huse
            · simpa using hmod
          have hstep : prefixScan (l :: rest) = (prefixScan rest).map (· + 1) := by
            simp only [prefixKeep, Bool.or_eq_true] at h0
            rcases h0 with ((h | h) | h) | h <;> simp [prefixScan, h]
          rw [hstep, hres]
          rfl

/-- C9: a file whose first line after the blank/comment/shebang prefix is
ordinary code — neither an attribute marker, an import opener, nor a
submodule opener — is rejected: `process_file` returns no rewrite. -/
theorem c9_ordinary_code_untouched (ws : List Str) (name : Str) (lines : List Str)
    (k : Nat) (hk : k < lines.length)
    (hpre : ∀ i, i < k → prefixKeep (lines.getD i []) = true)
    (hkeep : prefixKeep (lines.getD k []) = false)
    (hattr : isAttrLine (lines.getD k []) = false)
    (huse : matchesUse (lines.getD k []) = false)
    (hmod : matchesMod (lines.getD k []) = false) :
    process_file ws name lines = none := by
  have hscan : prefixScan lines = none :=
    prefixScan_eq_none lines k hk hpre hkeep hattr huse hmod
  simp [process_file, hscan]

/-- C9 witness: a file opening with a function definition (after a comment
line) is left untouched. -/
theorem c9_ordinary_code_untouched_witness :
    process_file [] (chars "a.rs")
      [chars "// intro\n", chars "fn main() \x7b\x7d\n", chars "use std::a;\n"]
      = none :=
  c9_ordinary_code_untouched [] (chars "a.rs")
    [chars "// intro\n", chars "fn main() \x7b\x7d\n", chars "use std::a;\n"]
    1 (by decide)
    (by decide)
    (by decide) (by decide) (by decide) (by decide)

/-- The rewritten line list always flattens to text ending in a newline. -/
lemma fixTrailing_flatten_ends (M : List Str) (hM : M ≠ []) :
    ((fixTrailing M).flatten).getLast? = some '\n' := by
  have hlast : M.getLast? = some (M.getLast hM) :=
    List.getLast?_eq_getLast_of_ne_nil hM
  by_cases hnl : (M.getLast hM).getLast? = some '\n'
  · have hfix : fixTrailing M = M := by simp [fixTrailing, hlast, hnl]
    have hdec : M.dropLast ++ [M.getLast hM] = M := List.dropLast_append_getLast hM
    have hlne : M.getLast hM ≠ [] := by
      intro he
      rw [he] at hnl
      simp at hnl
    rw [hfix, ← hdec, List.flatten_append,
      List.getLast?_append_of_ne_nil _ (by simpa using hlne)]
    simpa using hnl
  · have hfix : fixTrailing M = M.dropLast ++ [M.getLast hM ++ chars "\n"] := by
      simp [fixTrailing, hlast, hnl]
    have hnlc : chars "\n" = ['\n'] := by decide
    rw [hfix, List.flatten_append,
      List.getLast?_append_of_ne_nil _ (by simp [hnlc])]
    simp [hnlc, List.getLast?_concat]

/-- The assembled statement block is never empty when the rendered import
section is not. -/
lemma newLinesFor_ne_nil (name : Str) (pfx : List Str) (stmts : List Statement)
    (sec : List Str) (hsec : sec ≠ []) : newLinesFor name pfx stmts sec ≠ [] := by
  simp only [newLinesFor]
  split_ifs <;> simp [hsec]

/-- Inversion of a successful `process_file` run: the prefix scan
succeeded, the rendered import section is non-empty, the result is the
flattened reassembly, and it differs from the original text. -/
lemma process_file_some_inv {ws : List Str} {name : Str} {lines : List Str}
    {t : Str} (h : process_file ws name lines = some t) :
    prefixScan lines = some (prefixIdxOf lines)
    ∧ useSectionOf ws lines ≠ []
    ∧ t = (fixTrailing (newLinesFor name (lines.take (prefixIdxOf lines))
            (stmtsOf ws lines) (useSectionOf ws lines) ++ suffixOf ws lines)).flatten
    ∧ t ≠ lines.flatten := by
  cases hscan : prefixScan lines with
  | none =>
      simp only [process_file, hscan] at h
      exact Option.noConfusion h
  | some idx =>
      have hidx : prefixIdxOf lines = idx := by simp [prefixIdxOf, hscan]
      simp only [process_file, hscan] at h
      refine ⟨by rw [hidx], ?_⟩
      simp only [stmtsOf, useSectionOf, suffixOf, endIdxOf, hidx]
      split at h
      · exact Option.noConfusion h
      split at h
      · exact Option.noConfusion h
      split at h
      · exact Option.noConfusion h
      next hsec =>
      split at h
      next hdiff =>
        refine ⟨by simpa using hsec, ?_, ?_⟩
        · exact (Option.some.inj h).symm
        · rw [← Option.some.inj h]
          exact hdiff
      · exact Option.noConfusion h

/-- C6: whenever `process_file` returns a rewritten text, that text differs
from the original file content (flattened lines) and ends with a trailing
newline; identical content would have produced no result. -/
theorem c6_rewrite_differs_ends_newline (ws : List Str) (name : Str)
    (lines : List Str) (t : Str) (h : process_file ws name lines = some t) :
    t ≠ lines.flatten ∧ t.getLast? = some '\n' := by
  obtain ⟨hscan, hsec, ht, hne⟩ := process_file_some_inv h
  refine ⟨hne, ?_⟩
  rw [ht]
  apply fixTrailing_flatten_ends
  intro hx
  exact newLinesFor_ne_nil _ _ _ _ hsec (List.append_eq_nil.mp hx).1

/-- C6 witness: a concrete rewrite differs from its input and ends in a
newline. -/
theorem c6_rewrite_differs_ends_newline_witness :
    chars "use std::\x7bb, a\x7d;\n\n"
        ≠ [chars "use std::b;\n", chars "use std::a;\n"].flatten
    ∧ (chars "use std::\x7bb, a\x7d;\n\n").getLast? = some '\n' :=
  c6_rewrite_differs_ends_newline [] (chars "a.rs")
    [chars "use std::b;\n", chars "use std::a;\n"]
    (chars "use std::\x7bb, a\x7d;\n\n") (by decide)

/-- The head of a `dropWhile` result fails the predicate. -/
lemma dropWhile_head_false {p : Char → Bool} :
    ∀ (l : Str) {c : Char} {r : Str}, l.dropWhile p = c :: r → p c = false := by
  intro l
  induction l with
  | nil => intro c r h; simp at h
  | cons a tl ih =>
      intro c r h
      by_cases hp : p a = true
      · rw [List.dropWhile_cons, if_pos hp] at h
        exact ih h
      · rw [List.dropWhile_cons, if_neg hp] at h
        injection h with h1 _
        rw [← h1]
        simpa using hp

/-- A line recognized as a submodule opener does not strip to blank. -/
lemma matchesMod_strip (l : Str) (h : matchesMod l = true) :
    (pyStrip l).isEmpty = false := by
  have hkb : kwBoundary (chars "mod") [] = false := by decide
  have hne : pyLstrip l ≠ [] := by
    intro he
    simp only [matchesMod, he, hkb] at h
    exact Bool.noConfusion h
  obtain ⟨c, r, hcr⟩ : ∃ c r, pyLstrip l = c :: r := by
    cases hx : pyLstrip l
    · exact absurd hx hne
    · exact ⟨_, _, rfl⟩
  have hc : isPyWs c = false := dropWhile_head_false l hcr
  have hps : pyStrip l = pyRstrip (c :: r) := by rw [pyStrip, hcr]
  rw [hps, pyRstrip]
  cases hrs : (c :: r).reverse.dropWhile isPyWs with
  | nil =>
      exfalso
      have hall := List.dropWhile_eq_nil_iff.mp hrs c (by simp)
      rw [hc] at hall
      exact Bool.noConfusion hall
  | cons d ds => simp [hrs]

/-- A collected `"mod"` statement is its attribute lines plus one line that
matches the submodule opener pattern. -/
lemma collect_statement_mod {ws : List Str} {lines : List Str} {idx : Nat}
    {st : Statement} {next : Nat}
    (h : collect_statement ws lines idx = (some st, next))
    (hk : st.kind = chars "mod") :
    ∃ attrs l, st.lines = attrs ++ [l] ∧ matchesMod l = true := by
  unfold collect_statement at h
  cases hh : (lines.drop
      (idx + ((lines.drop idx).takeWhile isAttrLine).length)).head? with
  | none => simp [hh] at h
  | some line =>
      simp only [hh] at h
      split at h
      · split at h <;>
          · rw [Prod.mk.injEq] at h
            rw [← Option.some.inj h.1] at hk
            have hk2 : chars "use" = chars "mod" := hk
            exact absurd hk2 (by decide)
      · split at h
        · rw [Prod.mk.injEq] at h
          refine ⟨(lines.drop idx).takeWhile isAttrLine, line, ?_, by assumption⟩
          rw [← Option.some.inj h.1]
        · simp at h

/-- Every `"mod"` statement produced by the collection loop has the
attribute-lines-plus-opener shape. -/
lemma collectAll_mod {ws : List Str} {lines : List Str} :
    ∀ (fuel cur : Nat) (st : Statement),
      st ∈ (collectAll ws lines fuel cur).1 → st.kind = chars "mod" →
      ∃ attrs l, st.lines = attrs ++ [l] ∧ matchesMod l = true := by
  intro fuel
  induction fuel with
  | zero => intro cur st h _; simp [collectAll] at h
  | succ n ih =>
      intro cur st hmem hk
      cases hc : collect_statement ws lines cur with
      | mk ost next =>
          cases ost with
          | none => simp [collectAll, hc] at hmem
          | some st0 =>
              simp only [collectAll, hc] at hmem
              rcases List.mem_cons.mp hmem with rfl | hmem'
              · exact collect_statement_mod hc hk
              · exact ih _ st hmem' hk

/-- `append_blank_line` on a buffer ending in a non-blank line. -/
lemma append_blank_line_eq (buf : List Str) (l : Str)
    (h : buf.getLast? = some l) (hne : (pyStrip l).isEmpty = false) :
    append_blank_line buf = buf ++ [chars "\n"] := by
  simp [append_blank_line, h, hne]

/-- The buffer `prefix ++ mods` ends in the last submodule opener line,
which does not strip to blank. -/
lemma modsOf_last_shape (ws : List Str) (lines : List Str) (pfx : List Str)
    (hm : modsOf ws lines ≠ []) :
    ∃ lm, (pfx ++ (modsOf ws lines).flatten).getLast? = some lm
      ∧ (pyStrip lm).isEmpty = false := by
  have hLmem : (modsOf ws lines).getLast hm ∈ modsOf ws lines :=
    List.getLast_mem hm
  have hLmem2 : (modsOf ws lines).getLast hm ∈
      (List.filter (fun st => decide (st.kind = chars "mod"))
        (stmtsOf ws lines)).map Statement.lines := hLmem
  obtain ⟨st, hstf, hstl⟩ := List.mem_map.mp hLmem2
  have hstk : st.kind = chars "mod" := by
    have := (List.mem_filter.mp hstf).2
    simpa using this
  obtain ⟨attrs, lm, hshape, hmod⟩ :=
    collectAll_mod _ _ st (List.mem_filter.mp hstf).1 hstk
  refine ⟨lm, ?_, matchesMod_strip lm hmod⟩
  have hdec : (modsOf ws lines).dropLast ++ [(modsOf ws lines).getLast hm]
      = modsOf ws lines := List.dropLast_append_getLast hm
  have hflat : (modsOf ws lines).flatten
      = (modsOf ws lines).dropLast.flatten ++ (attrs ++ [lm]) := by
    conv_lhs => rw [← hdec]
    rw [List.flatten_append, ← hstl, hshape]
    simp
  rw [hflat,
    List.getLast?_append_of_ne_nil _ (by simp),
    List.getLast?_append_of_ne_nil _ (by simp),
    List.getLast?_concat]

/-- For a module-root filename with submodule statements present, the
assembled block is: prefix, the submodule lines in order, one blank line,
then the rendered import section. -/
lemma newLinesFor_root (ws : List Str) (name : Str) (lines : List Str)
    (sec : List Str) (hname : name ∈ rootNames)
    (hm : modsOf ws lines ≠ []) (hs : sec ≠ []) :
    newLinesFor name (lines.take (prefixIdxOf lines)) (stmtsOf ws lines) sec =
      lines.take (prefixIdxOf lines) ++ (modsOf ws lines).flatten
        ++ [chars "\n"] ++ sec := by
  obtain ⟨lm, hlm, hstrip⟩ :=
    modsOf_last_shape ws lines (lines.take (prefixIdxOf lines)) hm
  have hmods' : modLinesOf (stmtsOf ws lines) = modsOf ws lines := rfl
  simp only [newLinesFor, if_pos hname, hmods']
  have hcond : ¬(modsOf ws lines).isEmpty = true ∧ ¬sec.isEmpty = true :=
    ⟨by simpa [List.isEmpty_iff] using hm, by simpa [List.isEmpty_iff] using hs⟩
  rw [if_pos hcond, append_blank_line_eq _ lm hlm hstrip]

/-- C8: for a module-root filename (`mod.rs`, `lib.rs`, `main.rs`) whose
statement block contains submodule statements, the rewritten text is the
prefix, every submodule statement in original relative order, one blank
line, the rendered import section, and the suffix — even when a submodule
declaration originally appeared after an import statement. -/
theorem c8_mods_before_imports (ws : List Str) (name : Str) (lines : List Str)
    (t : Str) (hname : name ∈ rootNames)
    (h : process_file ws name lines = some t)
    (hmods : modsOf ws lines ≠ []) :
    t = (fixTrailing (lines.take (prefixIdxOf lines) ++ (modsOf ws lines).flatten
          ++ [chars "\n"] ++ useSectionOf ws lines ++ suffixOf ws lines)).flatten := by
  obtain ⟨hscan, hsec, ht, hne⟩ := process_file_some_inv h
  rw [ht, newLinesFor_root ws name lines (useSectionOf ws lines) hname hmods hsec]

/-- C8 witness: a `mod.rs` file with the submodule declared after the use
statement is reassembled with the submodule first. -/
theorem c8_mods_before_imports_witness :
    chars "mod b;\n\nuse std::a;\n\n"
      = (fixTrailing ([chars "use std::a;\n", chars "mod b;\n"].take
            (prefixIdxOf [chars "use std::a;\n", chars "mod b;\n"])
          ++ (modsOf [] [chars "use std::a;\n", chars "mod b;\n"]).flatten
          ++ [chars "\n"]
          ++ useSectionOf [] [chars "use std::a;\n", chars "mod b;\n"]
          ++ suffixOf [] [chars "use std::a;\n", chars "mod b;\n"])).flatten :=
  c8_mods_before_imports [] (chars "mod.rs")
    [chars "use std::a;\n", chars "mod b;\n"]
    (chars "mod b;\n\nuse std::a;\n\n")
    (by decide) (by decide) (by decide)

/-- `takeWhile` and the drop of its length reassemble the list. -/
lemma takeWhile_append_drop_length {α : Type} (p : α → Bool) (l : List α) :
    l.takeWhile p ++ l.drop (l.takeWhile p).length = l := by
  induction l with
  | nil => rfl
  | cons a tl ih =>
      by_cases hp : p a = true
      · rw [List.takeWhile_cons, if_pos hp]
        simpa using ih
      · rw [List.takeWhile_cons, if_neg hp]
        simp

/-- When no line triggers the semicolon-at-non-positive-depth terminator,
the collection loop consumes every remaining line. -/
lemma useLoop_consumes_all :
    ∀ (rest : List Str) (bal : Int),
      (∀ j, j < rest.length →
        ¬(hasSemi (rest.getD j []) = true
          ∧ bal + (((rest.take (j + 1)).map braceDelta).sum) ≤ 0)) →
      useLoop bal rest = (rest, rest.length) := by
  intro rest
  induction rest with
  | nil => intro bal _; rfl
  | cons l r ih =>
      intro bal hcond
      have h0 : ¬(hasSemi l = true ∧ bal + braceDelta l ≤ 0) := by
        simpa using hcond 0 (by simp)
      have hr : useLoop (bal + braceDelta l) r = (r, r.length) := by
        refine ih (bal + braceDelta l) (fun j hj => ?_)
        have hj' := hcond (j + 1) (by simpa using Nat.succ_lt_succ hj)
        simp only [List.getD_cons_succ, List.take_succ_cons, List.map_cons,
          List.sum_cons] at hj'
        rintro ⟨ha, hb⟩
        exact hj' ⟨ha, by omega⟩
      simp only [useLoop]
      rw [if_neg h0, hr]
      simp

/-- C10: at an import opener with no later semicolon at non-positive brace
depth, `collect_statement` consumes every remaining line into one
statement and returns the list's length, leaving an empty suffix. -/
theorem c10_unterminated_consumes_all (ws : List Str) (lines : List Str)
    (idx : Nat)
    (hu : idx + ((lines.drop idx).takeWhile isAttrLine).length < lines.length)
    (huse : matchesUse
      (lines.getD (idx + ((lines.drop idx).takeWhile isAttrLine).length) [])
      = true)
    (hterm : ∀ j, j < lines.length →
      idx + ((lines.drop idx).takeWhile isAttrLine).length ≤ j →
      ¬(hasSemi (lines.getD j []) = true
        ∧ balThrough lines
            (idx + ((lines.drop idx).takeWhile isAttrLine).length) j ≤ 0)) :
    (collect_statement ws lines idx).2 = lines.length
    ∧ ∃ st, (collect_statement ws lines idx).1 = some st
        ∧ st.lines = lines.drop idx := by
  set a := ((lines.drop idx).takeWhile isAttrLine).length with ha
  set u := idx + a with hudef
  set line := lines.getD u [] with hline
  have hdropu : lines.drop u = line :: lines.drop (u + 1) := by
    rw [hline, List.getD_eq_getElem lines [] hu]
    exact List.drop_eq_getElem_cons hu
  have hhead : (lines.drop u).head? = some line := by rw [hdropu]; rfl
  have hbal0 : balThrough lines u u = braceDelta line := by
    rw [balThrough, hdropu]
    simp
  have hfirst : ¬(hasSemi line = true ∧ braceDelta line ≤ 0) := by
    have := hterm u hu (Nat.le_refl u)
    rw [hbal0] at this
    exact this
  have hloop : useLoop (braceDelta line) (lines.drop (u + 1)) =
      (lines.drop (u + 1), (lines.drop (u + 1)).length) := by
    refine useLoop_consumes_all _ _ (fun j hj => ?_)
    have hjlen : u + 1 + j < lines.length := by
      have := hj
      rw [List.length_drop] at this
      omega
    have hgd : (lines.drop (u + 1)).getD j [] = lines.getD (u + 1 + j) [] := by
      simp [List.getD_eq_getElem?_getD, List.getElem?_drop]
    have hbt : balThrough lines u (u + 1 + j) =
        braceDelta line + (((lines.drop (u + 1)).take (j + 1)).map braceDelta).sum := by
      rw [balThrough, hdropu]
      have : u + 1 + j - u + 1 = j + 2 := by omega
      rw [this]
      simp
    have := hterm (u + 1 + j) hjlen (by omega)
    rw [hbt] at this
    rw [hgd]
    exact this
  have hcollect : collect_statement ws lines idx =
      (some ⟨chars "use",
        (lines.drop idx).takeWhile isAttrLine ++ [line] ++ lines.drop (u + 1),
        some (build_use_statement ws
          ((lines.drop idx).takeWhile isAttrLine ++ [line] ++ lines.drop (u + 1)))⟩,
        u + 1 + (lines.drop (u + 1)).length) := by
    rw [collect_statement]
    simp only [← ha, ← hudef, hhead]
    rw [if_pos ?_]
    · rw [if_neg hfirst, hloop]
    · exact huse
  constructor
  · rw [hcollect]
    simp only [List.length_drop]
    omega
  · refine ⟨_, by rw [hcollect], ?_⟩
    show (lines.drop idx).takeWhile isAttrLine ++ [line] ++ lines.drop (u + 1)
        = lines.drop idx
    rw [List.append_assoc, List.singleton_append, ← hdropu]
    have hdd : (lines.drop idx).drop a = lines.drop u := by
      rw [List.drop_drop, hudef, Nat.add_comm]
    rw [← hdd]
    exact takeWhile_append_drop_length isAttrLine (lines.drop idx)

/-- C10 witness: an attribute-free unterminated import swallows the whole
rest of the file and returns the file length. -/
theorem c10_unterminated_consumes_all_witness :
    (collect_statement [] [chars "use std::\x7ba;\n", chars "junk\n"] 0).2 = 2
    ∧ ∃ st, (collect_statement [] [chars "use std::\x7ba;\n", chars "junk\n"] 0).1
          = some st
        ∧ st.lines = [chars "use std::\x7ba;\n", chars "junk\n"].drop 0 :=
  c10_unterminated_consumes_all [] [chars "use std::\x7ba;\n", chars "junk\n"] 0
    (by decide) (by decide) (by decide)

end EnforceUseGroups
